import Mathlib

/-!
Verification of the opsult library (TypeScript): `Option`, `Result` and
`Future` types. The embedding below translates the runtime behaviour of
the source classes into Lean definitions:

* `JSVal` is a small universe of JavaScript runtime values (the TS type
  parameters are erased at runtime; `Option` stores its payload in an
  untyped slot that may hold `undefined`).
* `OptionC` embeds the class in src/src/Option.ts: a `_value` slot plus a
  `_isSome` flag, exactly as the class stores them.  Methods that take a
  function argument are embedded polymorphically over a monad so that
  invocation of the callback is observable; methods that can throw return
  `Except String`.
* The `Future` part embeds src/Future.ts.  A native promise outcome is
  `POutcome` (pending, fulfilled, rejected).  An executor passed to the
  `Future` constructor is represented by the sequence of events it
  performs over time: calls to the `ok` callback, calls to the `err`
  callback, and a synchronous throw (which the native Promise machinery
  turns into a rejection when nothing was resolved before it).  The native
  first-settlement-wins rule of promises is `Future.run`.
-/

/-- JavaScript runtime values, enough for the payloads the claims use.
`undef` is the `undefined` sentinel. -/
inductive JSVal where
  | undef
  | boolV (b : Bool)
  | num (n : Int)
  | str (s : String)
  deriving DecidableEq, Repr

/-- Embedding of the class `Option<T>` from src/src/Option.ts.  The class
holds a payload slot `_value : T | undefined` and a tag `_isSome`; both are
set in the constructor and never mutated. -/
structure OptionC where
  _value : JSVal
  _isSome : Bool
  deriving DecidableEq, Repr

namespace OptionC

/-- `Option.Some(value)`: `new Option(value, true)`. -/
def Some (value : JSVal) : OptionC := ⟨value, true⟩

/-- `Option.None()`: the shared singleton `new Option(undefined, false)`. -/
def None : OptionC := ⟨JSVal.undef, false⟩

/-- `isSome()`: `return this._isSome`. -/
def isSome (o : OptionC) : Bool := o._isSome

/-- `isNone()`: `return !this._isSome`. -/
def isNone (o : OptionC) : Bool := !o._isSome

/-- `unwrap()`: returns the slot when `_isSome`, otherwise throws
`Error("Called Option::unwrap on None")`.  A throw is embedded as
`Except.error` carrying the message. -/
def unwrap (o : OptionC) : Except String JSVal :=
  if o._isSome then Except.ok o._value
  else Except.error "Called Option::unwrap on None"

/-- `unwrapOr(defaultValue)`: slot when `_isSome`, else the default. -/
def unwrapOr (o : OptionC) (defaultValue : JSVal) : JSVal :=
  if o._isSome then o._value else defaultValue

/-- `unwrapOrElse(defaultValue)`: slot when `_isSome`, else invoke the
thunk.  The thunk lives in a monad `m` so invocation is observable. -/
def unwrapOrElse {m : Type → Type} [Monad m]
    (o : OptionC) (defaultValue : Unit → m JSVal) : m JSVal :=
  if o._isSome then pure o._value else defaultValue ()

/-- `map(f)`: `Some(f(this._value))` when `_isSome`, else `None()`;
`f` is only applied on the `Some` branch. -/
def map {m : Type → Type} [Monad m]
    (o : OptionC) (f : JSVal → m JSVal) : m OptionC :=
  if o._isSome then f o._value >>= fun u => pure (Some u)
  else pure None

/-- `or(other)`: `this` when `_isSome`, else `other`. -/
def or (o other : OptionC) : OptionC :=
  if o._isSome then o else other

/-- `orElse(defaultValue)`: `this` when `_isSome`, else invoke the thunk. -/
def orElse {m : Type → Type} [Monad m]
    (o : OptionC) (defaultValue : Unit → m OptionC) : m OptionC :=
  if o._isSome then pure o else defaultValue ()

/-- `and(other)`: `other` when `_isSome`, else `None()`. -/
def and (o other : OptionC) : OptionC :=
  if o._isSome then other else None

/-- `andThen(other)`: `other(this._value)` when `_isSome`, else `None()`. -/
def andThen {m : Type → Type} [Monad m]
    (o : OptionC) (other : JSVal → m OptionC) : m OptionC :=
  if o._isSome then other o._value else pure None

/-- `match(some, none)` (named `matchOn` here because `match` is reserved
in Lean): invoke `some` on the slot when `_isSome`, else invoke `none`. -/
def matchOn {m : Type → Type} [Monad m]
    (o : OptionC) (s : JSVal → m JSVal) (n : Unit → m JSVal) : m JSVal :=
  if o._isSome then s o._value else n ()

end OptionC

/-- Call-trace monad used to observe callback invocations: a computation
threads the list of arguments callbacks have been invoked on. -/
def Tr (α : Type) : Type := List JSVal → α × List JSVal

instance : Monad Tr where
  pure a := fun s => (a, s)
  bind x f := fun s => f (x s).1 (x s).2

/-- Instrument a pure function so each invocation appends its argument to
the trace. -/
def logged {α : Type} (g : JSVal → α) : JSVal → Tr α :=
  fun v => fun s => (g v, s ++ [v])

/-- Instrument a pure thunk so each invocation appends `undef` (its unit
argument) to the trace. -/
def loggedThunk {α : Type} (g : Unit → α) : Unit → Tr α :=
  fun u => fun s => (g u, s ++ [JSVal.undef])

/-- Modelled from the spec: `Result<T,E>` (src/Result.ts is not among the
provided sources; only its import and its use in Future.ts are).  Per the
spec it is an immutable tagged union with exactly the variants
`Ok(value: T)` and `Err(error: E)`, built by the `ok`/`err` factories. -/
inductive ResultC (T E : Type) where
  | ok (v : T)
  | err (e : E)
  deriving DecidableEq, Repr

namespace ResultC

/-- Modelled from the spec: `isOk()` tests the variant. -/
def isOk {T E : Type} : ResultC T E → Bool
  | .ok _ => true
  | .err _ => false

end ResultC

/-- Outcome of a native promise: pending, fulfilled with a value of type
`α`, or rejected with a reason of type `ρ`. -/
inductive POutcome (α ρ : Type) where
  | pending
  | fulfilled (v : α)
  | rejected (r : ρ)
  deriving DecidableEq, Repr

/-- Native `Promise.all` on a list of outcomes: rejected when some input
is rejected (with the reason of the first rejected input in index order;
the real primitive uses completion time, but which reason is irrelevant
to the claims), otherwise pending when some input is pending, otherwise
fulfilled with the values in input-index order. -/
def promiseAll {α ρ : Type} : List (POutcome α ρ) → POutcome (List α) ρ
  | [] => POutcome.fulfilled []
  | p :: ps =>
    match p with
    | POutcome.rejected r => POutcome.rejected r
    | POutcome.pending =>
      match promiseAll ps with
      | POutcome.rejected r => POutcome.rejected r
      | POutcome.pending => POutcome.pending
      | POutcome.fulfilled _ => POutcome.pending
    | POutcome.fulfilled v =>
      match promiseAll ps with
      | POutcome.rejected r => POutcome.rejected r
      | POutcome.pending => POutcome.pending
      | POutcome.fulfilled vs => POutcome.fulfilled (v :: vs)

/-- Native `promise.then(onFulfilled)` with no rejection handler: the
derived promise runs `f` on fulfillment and lets a rejection pass through
un-redirected. -/
def pThen {α β ρ : Type} (p : POutcome α ρ) (f : α → β) : POutcome β ρ :=
  match p with
  | POutcome.pending => POutcome.pending
  | POutcome.fulfilled v => POutcome.fulfilled (f v)
  | POutcome.rejected r => POutcome.rejected r

/-- One event performed by an executor passed to the `Future` constructor,
in the order the events happen at run time: a call to the `ok` callback, a
call to the `err` callback, or a synchronous throw out of the executor
body (which the native Promise constructor turns into a `reject` call). -/
inductive ExecEvent (T E ρ : Type) where
  | ok (v : T)
  | err (e : E)
  | thrown (r : ρ)
  deriving DecidableEq, Repr

namespace Future

/-- The `Future` constructor from src/Future.ts: `ok` resolves the
underlying promise with `Result.ok(value)`, `err` resolves it with
`Result.err(reason)`, and a throw rejects it.  The native primitive keeps
only the first settlement event; later events are no-ops. -/
def run {T E ρ : Type} : List (ExecEvent T E ρ) → POutcome (ResultC T E) ρ
  | [] => POutcome.pending
  | ExecEvent.ok v :: _ => POutcome.fulfilled (ResultC.ok v)
  | ExecEvent.err e :: _ => POutcome.fulfilled (ResultC.err e)
  | ExecEvent.thrown r :: _ => POutcome.rejected r

/-- Events performed by the executor of `Future.from(promise)`:
`promise.then(ok).catch(err)` calls `ok` with the value on native
fulfillment and `err` with the reason on native rejection. -/
def fromEvents {T E : Type} : POutcome T E → List (ExecEvent T E E)
  | POutcome.pending => []
  | POutcome.fulfilled v => [ExecEvent.ok v]
  | POutcome.rejected e => [ExecEvent.err e]

/-- Outcome of the `Future` built by `Future.from(promise)`. -/
def fromOutcome {T E : Type} (p : POutcome T E) : POutcome (ResultC T E) E :=
  run (fromEvents p)

/-- Events performed by the executor of `Future.parse(promise)`:
`promise.then(result => if result.isOk() then ok(result.unwrap()) else
err(result.unwrapErr()))` — no rejection handler is installed, so a
natively rejected input produces no settlement call at all. -/
def parseEvents {T E ρ : Type} : POutcome (ResultC T E) ρ → List (ExecEvent T E ρ)
  | POutcome.pending => []
  | POutcome.fulfilled (ResultC.ok v) => [ExecEvent.ok v]
  | POutcome.fulfilled (ResultC.err e) => [ExecEvent.err e]
  | POutcome.rejected _ => []

/-- Outcome of the `Future` built by `Future.parse(promise)`. -/
def parseOutcome {T E ρ : Type} (p : POutcome (ResultC T E) ρ) :
    POutcome (ResultC T E) ρ :=
  run (parseEvents p)

/-- Outcome of the derived promise `promise.then(handler)` inside
`Future.parse`: the handler returns `undefined`, and a native rejection of
`promise` passes through to this derived promise unhandled. -/
def parseDerived {T E ρ : Type} (p : POutcome (ResultC T E) ρ) : POutcome Unit ρ :=
  pThen p (fun _ => ())

/-- Outcome of `Future.ok(value)`: executor calls `ok(value)` once. -/
def okF {T E ρ : Type} (value : T) : POutcome (ResultC T E) ρ :=
  run [ExecEvent.ok value]

/-- Outcome of `Future.err(reason)`: executor calls `err(reason)` once. -/
def errF {T E ρ : Type} (reason : E) : POutcome (ResultC T E) ρ :=
  run [ExecEvent.err reason]

/-- The partition loop inside `Future.join`: pushes each `Ok` payload onto
`values` and each `Err` payload onto `errors`, walking the settled results
in input-index order.  The source guards `result.unwrap()` /
`result.unwrapErr()` with `result.isOk()`; the guarded accesses are the
two match arms. -/
def joinPartition {T E : Type} (results : List (ResultC T E)) : List T × List E :=
  results.foldl
    (fun acc result =>
      match result with
      | ResultC.ok v => (acc.1 ++ [v], acc.2)
      | ResultC.err e => (acc.1, acc.2 ++ [e]))
    ([], [])

/-- Events performed by the executor of `Future.join(futures)`:
`Promise.all(futures).then(results => ...)` partitions the results and then
calls `err(errors)` when `errors.length !== 0`, else `ok(values)`.  No
rejection handler is installed on the `Promise.all` chain. -/
def joinEvents {T E ρ : Type} (outs : List (POutcome (ResultC T E) ρ)) :
    List (ExecEvent (List T) (List E) ρ) :=
  match promiseAll outs with
  | POutcome.fulfilled results =>
    let pr := joinPartition results
    if pr.2.length ≠ 0 then [ExecEvent.err pr.2] else [ExecEvent.ok pr.1]
  | _ => []

/-- Outcome of the `Future` built by `Future.join(futures)`, as a function
of the outcomes of the input futures' underlying promises. -/
def joinOutcome {T E ρ : Type} (outs : List (POutcome (ResultC T E) ρ)) :
    POutcome (ResultC (List T) (List E)) ρ :=
  run (joinEvents outs)

/-- Outcome of the derived promise `Promise.all(futures).then(handler)`
inside `Future.join`: a native rejection of the aggregate passes through
to it unhandled. -/
def joinDerived {T E ρ : Type} (outs : List (POutcome (ResultC T E) ρ)) :
    POutcome Unit ρ :=
  pThen (promiseAll outs) (fun _ => ())

end Future

/-- The spec side of claim C1: the sequence of `Ok` payloads of the
settled results, in input-index order. -/
def okPayloads {T E : Type} (results : List (ResultC T E)) : List T :=
  results.filterMap (fun r =>
    match r with
    | ResultC.ok v => some v
    | ResultC.err _ => none)

/-- The spec side of claim C1: the sequence of `Err` payloads of the
settled results, in input-index order. -/
def errPayloads {T E : Type} (results : List (ResultC T E)) : List E :=
  results.filterMap (fun r =>
    match r with
    | ResultC.ok _ => none
    | ResultC.err e => some e)

/-- The partition loop, run from any accumulator, appends the `Ok` and
`Err` payload sequences in input order. -/
theorem joinPartition_foldl {T E : Type} (results : List (ResultC T E)) :
    ∀ acc : List T × List E,
      results.foldl
        (fun acc result =>
          match result with
          | ResultC.ok v => (acc.1 ++ [v], acc.2)
          | ResultC.err e => (acc.1, acc.2 ++ [e]))
        acc
      = (acc.1 ++ okPayloads results, acc.2 ++ errPayloads results) := by
  induction results with
  | nil => intro acc; simp [okPayloads, errPayloads]
  | cons r rs ih =>
    intro acc
    cases r with
    | ok v =>
      simp only [List.foldl_cons]
      rw [ih]
      simp [okPayloads, errPayloads, List.filterMap_cons]
    | err e =>
      simp only [List.foldl_cons]
      rw [ih]
      simp [okPayloads, errPayloads, List.filterMap_cons]

/-- `joinPartition` computes exactly the ordered payload sequences. -/
theorem joinPartition_eq {T E : Type} (results : List (ResultC T E)) :
    Future.joinPartition results = (okPayloads results, errPayloads results) := by
  unfold Future.joinPartition
  simpa using joinPartition_foldl results ([], [])

/-- `Promise.all` over promises that are all fulfilled is fulfilled with
the values in input order. -/
theorem promiseAll_map_fulfilled {α ρ : Type} (results : List α) :
    promiseAll ((results.map POutcome.fulfilled) : List (POutcome α ρ))
      = POutcome.fulfilled results := by
  induction results with
  | nil => rfl
  | cons v vs ih => simp [promiseAll, ih]

/-- `Promise.all` over a list containing a rejected promise is rejected. -/
theorem promiseAll_rejected_of_mem {α ρ : Type} (outs : List (POutcome α ρ)) (r : ρ) :
    POutcome.rejected r ∈ outs → ∃ q, promiseAll outs = POutcome.rejected q := by
  induction outs with
  | nil => intro h; cases h
  | cons p ps ih =>
    intro h
    rcases List.mem_cons.mp h with h1 | h2
    · exact ⟨r, by rw [← h1]; simp [promiseAll]⟩
    · obtain ⟨q, hq⟩ := ih h2
      cases p <;> simp [promiseAll, hq]

/-- Claim C1: for every finite sequence of input Futures that all settle,
`Future.join` waits for all of them, collects every `Ok` payload into a
value sequence and every `Err` payload into an error sequence, both in
input-index order, and the joined Future settles to `Err(errorSequence)`
when the error sequence is non-empty and to `Ok(valueSequence)`
otherwise. -/
theorem join_partitions_settled_results {T E ρ : Type} (results : List (ResultC T E)) :
    promiseAll ((results.map POutcome.fulfilled) : List (POutcome (ResultC T E) ρ))
        = POutcome.fulfilled results
    ∧ Future.joinOutcome ((results.map POutcome.fulfilled) : List (POutcome (ResultC T E) ρ))
        = POutcome.fulfilled
            (if (errPayloads results).isEmpty
              then ResultC.ok (okPayloads results)
              else ResultC.err (errPayloads results)) := by
  refine ⟨promiseAll_map_fulfilled results, ?_⟩
  have hall := promiseAll_map_fulfilled (ρ := ρ) results
  cases herr : errPayloads results with
  | nil =>
    simp [Future.joinOutcome, Future.joinEvents, hall, joinPartition_eq, herr, Future.run]
  | cons e es =>
    simp [Future.joinOutcome, Future.joinEvents, hall, joinPartition_eq, herr, Future.run]

/-- Claim C5: a Future settles at most once; the first settlement event
fixes the outcome, later calls of the executor callbacks are no-ops, a
call of `ok` settles to `Ok` and a call of `err` settles to `Err`, and
with no event the Future stays pending. -/
theorem future_settles_at_most_once {T E ρ : Type} :
    (∀ (c : ExecEvent T E ρ) (cs : List (ExecEvent T E ρ)),
        Future.run (c :: cs) = Future.run [c])
    ∧ Future.run ([] : List (ExecEvent T E ρ)) = POutcome.pending
    ∧ (∀ (v : T) (cs : List (ExecEvent T E ρ)),
        Future.run (ExecEvent.ok v :: cs) = POutcome.fulfilled (ResultC.ok v))
    ∧ (∀ (e : E) (cs : List (ExecEvent T E ρ)),
        Future.run (ExecEvent.err e :: cs) = POutcome.fulfilled (ResultC.err e)) := by
  refine ⟨?_, rfl, fun v cs => rfl, fun e cs => rfl⟩
  intro c cs
  cases c <;> rfl

/-- Claim C9: `Future.join` applied to the empty sequence settles to
`Ok` of the empty value sequence. -/
theorem join_empty_settles_ok_empty {T E ρ : Type} :
    Future.joinOutcome ([] : List (POutcome (ResultC T E) ρ))
      = POutcome.fulfilled (ResultC.ok ([] : List T)) := by
  simp [Future.joinOutcome, Future.joinEvents, promiseAll, Future.joinPartition, Future.run]

/-- Claim C8: `Future.from` of a native async value that completes with
`v` settles to `ok(v)`, and of one that fails with reason `e` settles to
`err(e)`. -/
theorem from_adapts_both_native_channels {T E : Type} :
    (∀ v : T, Future.fromOutcome (POutcome.fulfilled v : POutcome T E)
        = POutcome.fulfilled (ResultC.ok v))
    ∧ (∀ e : E, Future.fromOutcome (POutcome.rejected e : POutcome T E)
        = POutcome.fulfilled (ResultC.err e)) :=
  ⟨fun _ => rfl, fun _ => rfl⟩

/-- Claim C3: when the native async value given to `Future.parse` fails
natively, no settlement callback is invoked at all (in particular the
failure is not redirected into `settleErr`), the outer Future stays
pending (it does not catch the failure), and the failure propagates on
the underlying derived promise chain. -/
theorem parse_native_failure_not_redirected {T E ρ : Type} :
    ∀ r : ρ,
      Future.parseEvents (POutcome.rejected r : POutcome (ResultC T E) ρ) = []
      ∧ (∀ e : E,
          ExecEvent.err e ∉ Future.parseEvents (POutcome.rejected r : POutcome (ResultC T E) ρ))
      ∧ Future.parseOutcome (POutcome.rejected r : POutcome (ResultC T E) ρ) = POutcome.pending
      ∧ Future.parseDerived (POutcome.rejected r : POutcome (ResultC T E) ρ)
          = POutcome.rejected r :=
  fun r => ⟨rfl, fun e h => by simp [Future.parseEvents] at h, rfl, rfl⟩

/-- Claim C4: when some input to `Future.join` is natively rejected, the
aggregate `Promise.all` wait fails natively and that failure passes
through the derived chain un-redirected; no `err` settlement with an
aggregated error sequence happens (the executor performs no settlement
call at all) and the joined Future stays pending. -/
theorem join_native_failure_not_absorbed {T E ρ : Type}
    (outs : List (POutcome (ResultC T E) ρ)) (r : ρ)
    (h : POutcome.rejected r ∈ outs) :
    (∃ q : ρ, promiseAll outs = POutcome.rejected q
        ∧ Future.joinDerived outs = POutcome.rejected q)
    ∧ Future.joinEvents outs = []
    ∧ (∀ es : List E, ExecEvent.err es ∉ Future.joinEvents outs)
    ∧ Future.joinOutcome outs = POutcome.pending := by
  obtain ⟨q, hq⟩ := promiseAll_rejected_of_mem outs r h
  have hev : Future.joinEvents outs = [] := by
    simp [Future.joinEvents, hq]
  refine ⟨⟨q, hq, ?_⟩, hev, ?_, ?_⟩
  · simp [Future.joinDerived, hq, pThen]
  · intro es hmem
    rw [hev] at hmem
    cases hmem
  · simp [Future.joinOutcome, hev, Future.run]

/-- Witness for claim C4 at the concrete input `[rejected 7]`. -/
theorem join_native_failure_not_absorbed_witness :
    (∃ q : Nat, promiseAll ([POutcome.rejected 7] : List (POutcome (ResultC Nat Nat) Nat))
          = POutcome.rejected q
        ∧ Future.joinDerived ([POutcome.rejected 7] : List (POutcome (ResultC Nat Nat) Nat))
          = POutcome.rejected q)
    ∧ Future.joinEvents ([POutcome.rejected 7] : List (POutcome (ResultC Nat Nat) Nat)) = []
    ∧ (∀ es : List Nat,
        ExecEvent.err es
          ∉ Future.joinEvents ([POutcome.rejected 7] : List (POutcome (ResultC Nat Nat) Nat)))
    ∧ Future.joinOutcome ([POutcome.rejected 7] : List (POutcome (ResultC Nat Nat) Nat))
        = POutcome.pending :=
  join_native_failure_not_absorbed [POutcome.rejected 7] 7 (by simp)

/-- Counterexample to claim C2 as stated: the claim quantifies over every
executor supplied to the constructor, but the constructor wraps the
executor in the native promise executor without a try/catch, so an
executor that throws before settling makes the native Promise reject —
the Future completes through the native rejection channel. -/
theorem constructor_rejects_on_throwing_executor :
    Future.run [ExecEvent.thrown (0 : Nat)]
      = (POutcome.rejected 0 : POutcome (ResultC Nat Nat) Nat) := rfl

/-- Claim C2, amended: for every executor that does not throw before
settling — its first event, when there is one, is a settlement callback
call, so an executor that settles and only throws afterwards is included
— the Future either stays pending or completes by native fulfillment
with a `Result`; and every factory (`from`, `parse`, `join`, `ok`,
`err`) builds a Future that never completes through the native rejection
channel. -/
theorem future_never_rejects {T E ρ : Type} :
    (∀ events : List (ExecEvent T E ρ),
        (∀ (r : ρ) (rest : List (ExecEvent T E ρ)),
          events ≠ ExecEvent.thrown r :: rest) →
        Future.run events = POutcome.pending
          ∨ ∃ res : ResultC T E, Future.run events = POutcome.fulfilled res)
    ∧ (∀ p : POutcome T E, ∀ r : E, Future.fromOutcome p ≠ POutcome.rejected r)
    ∧ (∀ p : POutcome (ResultC T E) ρ, ∀ r : ρ,
        Future.parseOutcome p ≠ POutcome.rejected r)
    ∧ (∀ outs : List (POutcome (ResultC T E) ρ), ∀ r : ρ,
        Future.joinOutcome outs ≠ POutcome.rejected r)
    ∧ (∀ v : T, ∀ r : ρ, Future.okF (E := E) v ≠ POutcome.rejected r)
    ∧ (∀ e : E, ∀ r : ρ, Future.errF (T := T) e ≠ POutcome.rejected r) := by
  refine ⟨?_, ?_, ?_, ?_, ?_, ?_⟩
  · intro events hnothrow
    cases events with
    | nil => exact Or.inl rfl
    | cons c cs =>
      cases c with
      | ok v => exact Or.inr ⟨ResultC.ok v, rfl⟩
      | err e => exact Or.inr ⟨ResultC.err e, rfl⟩
      | thrown r => exact absurd rfl (hnothrow r cs)
  · intro p r
    cases p <;> simp [Future.fromOutcome, Future.fromEvents, Future.run]
  · intro p r
    cases p with
    | pending => simp [Future.parseOutcome, Future.parseEvents, Future.run]
    | fulfilled res =>
      cases res <;> simp [Future.parseOutcome, Future.parseEvents, Future.run]
    | rejected q => simp [Future.parseOutcome, Future.parseEvents, Future.run]
  · intro outs r
    cases hA : promiseAll outs with
    | pending => simp [Future.joinOutcome, Future.joinEvents, hA, Future.run]
    | fulfilled results =>
      by_cases h : (Future.joinPartition results).2.length ≠ 0
      · simp [Future.joinOutcome, Future.joinEvents, hA, h, Future.run]
      · simp [Future.joinOutcome, Future.joinEvents, hA, h, Future.run]
    | rejected q => simp [Future.joinOutcome, Future.joinEvents, hA, Future.run]
  · intro v r
    simp [Future.okF, Future.run]
  · intro e r
    simp [Future.errF, Future.run]

/-- Witness for the amended claim C2 at the concrete executor trace
`[ok 1, thrown 2]`: the executor settles first and throws only
afterwards, so it does not throw before settling and is in the amended
claim's scope. -/
theorem future_never_rejects_witness :
    Future.run ([ExecEvent.ok 1, ExecEvent.thrown 2] : List (ExecEvent Nat Nat Nat))
        = POutcome.pending
      ∨ ∃ res : ResultC Nat Nat,
          Future.run ([ExecEvent.ok 1, ExecEvent.thrown 2] : List (ExecEvent Nat Nat Nat))
            = POutcome.fulfilled res :=
  (future_never_rejects).1 [ExecEvent.ok 1, ExecEvent.thrown 2]
    (by intro r rest h; simp at h)

/-- Claim C6: `unwrap` on `Some(v)` returns `v`, `unwrap` on `None()`
throws the "unwrap on None" error, and every other Option operation never
raises: the flag and payload accessors without callbacks (`isSome`,
`isNone`, `unwrapOr`, `or`, `and`) are embedded as total pure functions,
and every callback-taking operation, run in the exception monad with
non-throwing callbacks, returns a value and never an error. -/
theorem unwrap_is_only_raising_op :
    (∀ v : JSVal, (OptionC.Some v).unwrap = Except.ok v)
    ∧ OptionC.None.unwrap = Except.error "Called Option::unwrap on None"
    ∧ (∀ (o : OptionC) (f : JSVal → JSVal),
        ∃ u, OptionC.map (m := Except String) o (fun v => pure (f v)) = Except.ok u)
    ∧ (∀ (o : OptionC) (f : JSVal → OptionC),
        ∃ u, OptionC.andThen (m := Except String) o (fun v => pure (f v)) = Except.ok u)
    ∧ (∀ (o : OptionC) (d : Unit → JSVal),
        ∃ u, OptionC.unwrapOrElse (m := Except String) o (fun x => pure (d x)) = Except.ok u)
    ∧ (∀ (o : OptionC) (d : Unit → OptionC),
        ∃ u, OptionC.orElse (m := Except String) o (fun x => pure (d x)) = Except.ok u)
    ∧ (∀ (o : OptionC) (s : JSVal → JSVal) (n : Unit → JSVal),
        ∃ u, OptionC.matchOn (m := Except String) o
              (fun v => pure (s v)) (fun x => pure (n x)) = Except.ok u) := by
  refine ⟨fun v => rfl, rfl, ?_, ?_, ?_, ?_, ?_⟩
  · intro o f
    by_cases h : o._isSome
    · exact ⟨OptionC.Some (f o._value), by unfold OptionC.map; rw [if_pos h]; rfl⟩
    · exact ⟨OptionC.None, by unfold OptionC.map; rw [if_neg h]; rfl⟩
  · intro o f
    by_cases h : o._isSome
    · exact ⟨f o._value, by unfold OptionC.andThen; rw [if_pos h]; rfl⟩
    · exact ⟨OptionC.None, by unfold OptionC.andThen; rw [if_neg h]; rfl⟩
  · intro o d
    by_cases h : o._isSome
    · exact ⟨o._value, by unfold OptionC.unwrapOrElse; rw [if_pos h]; rfl⟩
    · exact ⟨d (), by unfold OptionC.unwrapOrElse; rw [if_neg h]; rfl⟩
  · intro o d
    by_cases h : o._isSome
    · exact ⟨o, by unfold OptionC.orElse; rw [if_pos h]; rfl⟩
    · exact ⟨d (), by unfold OptionC.orElse; rw [if_neg h]; rfl⟩
  · intro o s n
    by_cases h : o._isSome
    · exact ⟨s o._value, by unfold OptionC.matchOn; rw [if_pos h]; rfl⟩
    · exact ⟨n (), by unfold OptionC.matchOn; rw [if_neg h]; rfl⟩

/-- Claim C7: run in the call-trace monad with instrumented callbacks,
`map`, `andThen` and `unwrapOrElse` never invoke their function argument
on the inactive branch (the trace is unchanged there), `unwrapOrElse` on
`None` invokes its thunk exactly once and returns its result, and on the
active branch `Some(v).map(f).unwrap() = f(v)` and
`Some(v).andThen(f) = f(v)`, with `f` invoked exactly once on `v`. -/
theorem callback_ops_lazy_and_exact :
    ∀ (g : JSVal → JSVal) (f : JSVal → OptionC) (d : Unit → JSVal)
      (v : JSVal) (s : List JSVal),
      OptionC.map (m := Tr) OptionC.None (logged g) s = (OptionC.None, s)
      ∧ OptionC.andThen (m := Tr) OptionC.None (logged f) s = (OptionC.None, s)
      ∧ OptionC.unwrapOrElse (m := Tr) (OptionC.Some v) (loggedThunk d) s = (v, s)
      ∧ OptionC.unwrapOrElse (m := Tr) OptionC.None (loggedThunk d) s
          = (d (), s ++ [JSVal.undef])
      ∧ OptionC.map (m := Tr) (OptionC.Some v) (logged g) s
          = (OptionC.Some (g v), s ++ [v])
      ∧ (OptionC.map (m := Tr) (OptionC.Some v) (logged g) s).1.unwrap
          = Except.ok (g v)
      ∧ OptionC.andThen (m := Tr) (OptionC.Some v) (logged f) s = (f v, s ++ [v]) :=
  fun _g _f _d _v _s => ⟨rfl, rfl, rfl, rfl, rfl, rfl, rfl⟩

/-- Claim C10: the Some/None distinction is decided solely by the
`_isSome` tag, never by the payload slot: any instance answers `isSome`
and `isNone` from the tag alone, `Some(v)` is `Some` with `unwrap`
returning `v` for every value `v` including `undefined`, and
`Some(undefined)` is observably distinct from `None()`. -/
theorem variant_decided_by_tag_only :
    (∀ (val : JSVal) (tag : Bool),
        (OptionC.mk val tag).isSome = tag ∧ (OptionC.mk val tag).isNone = !tag)
    ∧ (∀ v : JSVal, (OptionC.Some v).isSome = true
        ∧ (OptionC.Some v).isNone = false
        ∧ (OptionC.Some v).unwrap = Except.ok v)
    ∧ (OptionC.Some JSVal.undef).isSome = true
    ∧ (OptionC.Some JSVal.undef).isNone = false
    ∧ (OptionC.Some JSVal.undef).unwrap = Except.ok JSVal.undef
    ∧ OptionC.None.isSome = false
    ∧ (OptionC.Some JSVal.undef).isSome ≠ OptionC.None.isSome
    ∧ OptionC.Some JSVal.undef ≠ OptionC.None :=
  ⟨fun val tag => ⟨rfl, rfl⟩, fun v => ⟨rfl, rfl, rfl⟩,
    rfl, rfl, rfl, rfl, by decide, by decide⟩
